import Mathlib

/-!
Shallow embedding of the `extendme` / `extensified` extension-decorator library.

A Python class keeps its members in a name-indexed dictionary.  Class-dict
entries are modelled by `Attr`; functions, properties, classmethods,
staticmethods, bound methods and plain data values are separate constructors
because the source distinguishes them through `callable`, `_is_descriptor`,
`_is_classmethod` and `_is_staticmethod`.

The decorator iterates over a Python `set` of member names, whose enumeration
order is unspecified (string hashing is randomised per process), so every run
below is parameterised by an explicit enumeration order of that set.
-/

/-- Runtime instance of an extended class: the class it belongs to plus the
instance attributes used by the repository's test scenarios (a name and an
age, as in the `User` fixture). -/
structure Obj where
  cls : String
  name : String
  age : Int
deriving DecidableEq

/-- Python values produced and consumed by the modelled members. -/
inductive PyVal where
  | int : Int → PyVal
  | str : String → PyVal
  | bool : Bool → PyVal
  | obj : Obj → PyVal
  | pynone : PyVal
deriving DecidableEq

/-- Raw entry of a class `__dict__`.  `func` is a plain function expecting the
instance as implicit first argument; `plainfn` is a function expecting no
instance (what `getattr` returns for a staticmethod); `prop` is a property
object carrying a getter and an optional setter; `classm` is a `classmethod`
wrapper around a function whose first argument is the owner class; `staticm`
is a `staticmethod` wrapper; `boundm` is a bound-method object whose
`__self__` is the named class; `data` is a non-callable plain value. -/
inductive Attr where
  | func : (Obj → List PyVal → PyVal) → Attr
  | plainfn : (List PyVal → PyVal) → Attr
  | prop : (Obj → PyVal) → Option (Obj → PyVal → Obj) → Attr
  | classm : (String → List PyVal → PyVal) → Attr
  | staticm : (List PyVal → PyVal) → Attr
  | boundm : String → (String → List PyVal → PyVal) → Attr
  | data : PyVal → Attr

/-- Lookup of a key in an association-list dictionary (first match). -/
def lookupTable : List (String × Attr) → String → Option Attr
  | [], _ => none
  | p :: rest, n => if p.1 = n then some p.2 else lookupTable rest n

/-- Boolean key-membership test for an association-list dictionary. -/
def hasKey : List (String × Attr) → String → Bool
  | [], _ => false
  | p :: rest, n => if p.1 = n then true else hasKey rest n

/-- Replacement of the value stored under a key, keeping the entry position
(CPython dicts keep the insertion position of an updated key). -/
def replaceKey : List (String × Attr) → String → Attr → List (String × Attr)
  | [], _, _ => []
  | p :: rest, n, a => if p.1 = n then (n, a) :: replaceKey rest n a else p :: replaceKey rest n a

/-- Dictionary store: update in place when the key exists, append otherwise,
mirroring CPython dict assignment. -/
def tableSet (tbl : List (String × Attr)) (n : String) (a : Attr) : List (String × Attr) :=
  if hasKey tbl n then replaceKey tbl n a else tbl ++ [(n, a)]

/-- Well-formedness of a class dictionary: keys occur at most once. -/
abbrev keysNodup (tbl : List (String × Attr)) : Prop :=
  (tbl.map Prod.fst).Nodup

/-- Boolean membership in a list of names. -/
def memb : List String → String → Bool
  | [], _ => false
  | x :: xs, n => if x = n then true else memb xs n

/-- Removal of duplicate names, keeping the last occurrence; used to model
`dir`, which returns each visible name once. -/
def dedupNames : List String → List String
  | [] => []
  | x :: xs => if memb xs x then dedupNames xs else x :: dedupNames xs

/-- An extension class (bundle): its name, its own `__dict__`, and the member
view of its single immediate base class (`cls.__bases__` has one element for
the bundles the library works with; `baseDir` lists every name visible on that
base together with the attribute `getattr` on the base resolves it to). -/
structure PyClass where
  cname : String
  ownDict : List (String × Attr)
  baseDir : List (String × Attr)

/-- The target type being extended: its name, whether it is a built-in
(protected) type, and its member table. -/
structure Target where
  tname : String
  isBuiltin : Bool
  table : List (String × Attr)

/-- Outcome of one decorator application: whether a `TypeError` escaped, and
the state of the target afterwards. -/
structure RunResult where
  raised : Bool
  target : Target

/-- Resolution of `inspect.getattr_static(cls, n)`: the raw dictionary entry,
searching the class's own `__dict__` first and then its base, with no
descriptor binding. -/
def getattr_static (c : PyClass) (n : String) : Option Attr :=
  match lookupTable c.ownDict n with
  | some a => some a
  | none => lookupTable c.baseDir n

/-- Descriptor binding performed by `getattr(cls, n)` on a raw class-dict
entry: a classmethod yields a method bound to the owner class, a staticmethod
yields its unwrapped function, everything else is returned as stored. -/
def getattrValue (owner : String) : Attr → Attr
  | Attr.classm f => Attr.boundm owner f
  | Attr.staticm f => Attr.plainfn f
  | a => a

/-- Resolution of `getattr(cls, n)`: static lookup followed by descriptor
binding with the class itself as owner. -/
def pygetattr (c : PyClass) (n : String) : Option Attr :=
  (getattr_static c n).map (getattrValue c.cname)

/-- Whether `callable(x)` holds for an attribute value: functions, bound
methods and the `getattr` views of classmethods and staticmethods are
callable; property objects and the plain data values modelled here are not. -/
def pycallable : Attr → Bool
  | Attr.prop _ _ => false
  | Attr.data _ => false
  | _ => true

/-- Faithful translation of `_is_descriptor(obj)`: whether the value has any
of `__get__`, `__set__`, `__delete__`.  Properties have all three; plain
functions, bound methods and the wrapper objects expose `__get__`; the plain
data values modelled here expose none. -/
def _is_descriptor : Attr → Bool
  | Attr.data _ => false
  | _ => true

/-- Faithful translation of `_is_classmethod(obj)`: the value has a
`__self__` attribute and that `__self__` is a type.  In this model the only
such values are methods bound to a class. -/
def _is_classmethod : Attr → Bool
  | Attr.boundm _ _ => true
  | _ => false

/-- Faithful translation of `_is_staticmethod(cls, name)`: the static
(unbound) dictionary entry is a `staticmethod` object. -/
def _is_staticmethod (c : PyClass) (n : String) : Bool :=
  match getattr_static c n with
  | some (Attr.staticm _) => true
  | _ => false

/-- The filter used by both set comprehensions in
`_non_inherited_methods_names`:
`callable(getattr(cls, attr)) or _is_descriptor(getattr(cls, attr))`. -/
def methodFilter (a : Attr) : Bool :=
  pycallable a || _is_descriptor a

/-- Names visible on the class (`dir(cls)`): its own dictionary keys together
with every name visible on its base, each name once. -/
def dirNames (c : PyClass) : List String :=
  dedupNames (c.ownDict.map Prod.fst ++ c.baseDir.map Prod.fst)

/-- First comprehension of `_non_inherited_methods_names`: every name in
`dir(cls)` whose `getattr` value is callable or a descriptor. -/
def all_method_names (c : PyClass) : List String :=
  (dirNames c).filter fun n =>
    match pygetattr c n with
    | some a => methodFilter a
    | none => false

/-- Second comprehension of `_non_inherited_methods_names`: the same filter
over the names visible on the immediate base class, using `getattr` on the
base. -/
def parent_classes_method_names (c : PyClass) : List String :=
  ((c.baseDir.filter fun p => methodFilter (getattrValue c.cname p.2)).map Prod.fst)

/-- Faithful translation of `_non_inherited_methods_names(cls)`: the
asymmetric difference of the two name sets, enumerated here in `dir` order
(the Python source returns a `set`, whose enumeration order is unspecified;
run functions below therefore also accept arbitrary enumeration orders). -/
def _non_inherited_methods_names (c : PyClass) : List String :=
  (all_method_names c).filter fun n => !(memb (parent_classes_method_names c) n)

/-- Mutation of a type's member table by `setattr(target, n, a)`.  CPython
raises `TypeError` when the target is a built-in type; neither library
iteration checks for built-ins explicitly, this raise is the only guard. -/
def setattrType (t : Target) (n : String) (a : Attr) : Option Target :=
  if t.isBuiltin then none
  else some { t with table := tableSet t.table n a }

/-- Installation step shared by the classmethod and staticmethod branches of
the `extensified` decorator: perform the `setattr` (which may raise) and then
execute the branch's `return` statement, ending the whole loop. -/
def installStop (t : Target) (n : String) (a : Attr) : RunResult :=
  match setattrType t n a with
  | none => RunResult.mk true t
  | some t2 => RunResult.mk false t2

namespace Extensified

/-- Loop body of the final iteration's `decorator(extension_class)`, iterating
the given enumeration of `_non_inherited_methods_names(extension_class)`.
For each name it fetches `method = getattr(extension_class, method_name)` and
then branches:
classmethod (`_is_classmethod(method)` holds exactly when the resolved value
is a method bound to a class) installs `classmethod(method.__func__)` and
executes `return`, ending the loop;
staticmethod (`_is_staticmethod` consults `inspect.getattr_static`) installs
`staticmethod(method)`, re-wrapping the unwrapped function, and likewise
executes `return`;
otherwise `setattr(extension_target, method_name, method)` runs and the loop
continues. -/
def decoratorLoop (c : PyClass) : Target → List String → RunResult
  | t, [] => RunResult.mk false t
  | t, n :: rest =>
    match getattr_static c n with
    | none => decoratorLoop c t rest
    | some (Attr.classm f) => installStop t n (Attr.classm f)
    | some (Attr.boundm _ f) => installStop t n (Attr.classm f)
    | some (Attr.staticm f) => installStop t n (Attr.staticm f)
    | some raw =>
      match setattrType t n (getattrValue c.cname raw) with
      | none => RunResult.mk true t
      | some t2 => decoratorLoop c t2 rest

/-- Application of `extension_on(extension_target)` to `extension_class`,
with the set-enumeration order made explicit. -/
def extension_on (extension_target : Target) (extension_class : PyClass)
    (order : List String) : RunResult :=
  decoratorLoop extension_class extension_target order

/-- Registration using the canonical (`dir`-order) enumeration of the
own-member set. -/
def register (extension_target : Target) (extension_class : PyClass) : RunResult :=
  extension_on extension_target extension_class (_non_inherited_methods_names extension_class)

end Extensified

namespace Extendme

/-- Loop body of the superseded iteration's `decorator(extension_class)`:
`setattr(extension_target, method_name, getattr(extension_class,
method_name))` for every enumerated name, with no classmethod or staticmethod
handling and no early return. -/
def decoratorLoop (c : PyClass) : Target → List String → RunResult
  | t, [] => RunResult.mk false t
  | t, n :: rest =>
    match getattr_static c n with
    | none => decoratorLoop c t rest
    | some raw =>
      match setattrType t n (getattrValue c.cname raw) with
      | none => RunResult.mk true t
      | some t2 => decoratorLoop c t2 rest

/-- Application of the superseded `extension_on(extension_target)` to
`extension_class`, with the set-enumeration order made explicit. -/
def extension_on (extension_target : Target) (extension_class : PyClass)
    (order : List String) : RunResult :=
  decoratorLoop extension_class extension_target order

end Extendme

/-- Summary of the entry each `extensified` branch stores for a raw bundle
attribute: classmethods (and class-bound methods) are re-wrapped as
`classmethod(method.__func__)`, staticmethods as `staticmethod(method)`, and
every other attribute is installed as its `getattr` view. -/
def installedAttr (owner : String) : Attr → Attr
  | Attr.classm f => Attr.classm f
  | Attr.boundm _ f => Attr.classm f
  | Attr.staticm f => Attr.staticm f
  | a => getattrValue owner a

/-- Accessing member `n` through the type itself (Python `T.n`) when the
table entry is a classmethod: the descriptor protocol binds the owner type,
whose name the implicit `cls` argument will receive. -/
def classmethodBoundSelf (t : Target) (n : String) : Option String :=
  match lookupTable t.table n with
  | some (Attr.classm _) => some t.tname
  | _ => none

/-- Calling `T.n(args)` when the table entry is a classmethod: the wrapped
function receives the owner type as its implicit first argument. -/
def callClassmethod (t : Target) (n : String) (args : List PyVal) : Option PyVal :=
  match lookupTable t.table n with
  | some (Attr.classm f) => some (f t.tname args)
  | _ => none

/-- Calling method `n` on an instance `o` of target `t`: a plain function is
bound to the instance, a classmethod to the instance's class, a staticmethod
and a bound method take no new receiver.  A `plainfn` entry (a function whose
signature expects no instance) would receive the instance anyway and fail
with an arity `TypeError`, modelled as `none`. -/
def callMethod (t : Target) (o : Obj) (n : String) (args : List PyVal) : Option PyVal :=
  match lookupTable t.table n with
  | some (Attr.func f) => some (f o args)
  | some (Attr.classm f) => some (f o.cls args)
  | some (Attr.staticm f) => some (f args)
  | some (Attr.boundm s f) => some (f s args)
  | _ => none

/-- Reading attribute `n` on an instance of `t` when the class entry is a
property: `property.__get__` invokes the getter with the instance as
receiver.  Any other entry kind yields `none` here. -/
def propertyRead (t : Target) (o : Obj) (n : String) : Option PyVal :=
  match lookupTable t.table n with
  | some (Attr.prop g _) => some (g o)
  | _ => none

/-- Assigning through attribute `n` on an instance of `t` when the class
entry is a property: `property.__set__` invokes the setter with the instance
as receiver; a property with no setter raises `AttributeError`, modelled as
`none`. -/
def propertyAssign (t : Target) (o : Obj) (n : String) (v : PyVal) : Option Obj :=
  match lookupTable t.table n with
  | some (Attr.prop _ (some s)) => some (s o v)
  | _ => none

/-- Decidable form of the reach condition for a list of names: none of them
resolves to an attribute that makes the `extensified` loop execute `return`
(a classmethod, class-bound method or staticmethod entry). -/
def haltsLoop : Attr → Bool
  | Attr.classm _ => true
  | Attr.boundm _ _ => true
  | Attr.staticm _ => true
  | _ => false

/-- Whether every name in the list resolves (if at all) to an attribute that
lets the `extensified` loop continue past it. -/
def continuesThrough (c : PyClass) (names : List String) : Bool :=
  names.all fun m =>
    match getattr_static c m with
    | some am => !haltsLoop am
    | none => true

/-- Whether every own member of the bundle is a plain instance method or a
property (the bundle class used by the refinement claim). -/
def ownAllPlainOrProp (c : PyClass) : Bool :=
  (_non_inherited_methods_names c).all fun n =>
    match getattr_static c n with
    | some (Attr.func _) => true
    | some (Attr.prop _ _) => true
    | some _ => false
    | none => true

/-- Member view of `object`, the implicit base of every bundle class; two
representative inherited callables suffice for the scenarios. -/
def objInitFn : Obj → List PyVal → PyVal := fun _ _ => PyVal.pynone

/-- Representative `object.__eq__` payload. -/
def objEqFn : Obj → List PyVal → PyVal := fun _ _ => PyVal.bool true

/-- The attributes every bundle inherits from its `object` base. -/
def objectDir : List (String × Attr) :=
  [("__init__", Attr.func objInitFn), ("__eq__", Attr.func objEqFn)]

/-- Native `User.years_until_death`, returning `100 - age`. -/
def userYUDFn : Obj → List PyVal → PyVal := fun o _ => PyVal.int (100 - o.age)

/-- The `User` fixture as a target type. -/
def userTarget : Target :=
  { tname := "User", isBuiltin := false,
    table := [("years_until_death", Attr.func userYUDFn)] }

/-- Bundle method overriding `years_until_death` with `200 - age`. -/
def extYUDFn : Obj → List PyVal → PyVal := fun o _ => PyVal.int (200 - o.age)

/-- Bundle declaring only the overriding `years_until_death`. -/
def yudBundle : PyClass :=
  { cname := "_UserStaticmethodsExtension",
    ownDict := [("years_until_death", Attr.func extYUDFn)],
    baseDir := objectDir }

/-- Classmethod payload modelling `create_adult(cls, name): return cls(name, 18)`. -/
def createAdultFn : String → List PyVal → PyVal := fun cls args =>
  match args with
  | [PyVal.str nm] => PyVal.obj { cls := cls, name := nm, age := 18 }
  | _ => PyVal.pynone

/-- Bundle declaring only the `create_adult` classmethod. -/
def createBundle : PyClass :=
  { cname := "_UserClassmethodsExtension",
    ownDict := [("create_adult", Attr.classm createAdultFn)],
    baseDir := objectDir }

/-- First factory classmethod of the two-classmethod bundle. -/
def makeAFn : String → List PyVal → PyVal := fun cls _ =>
  PyVal.obj { cls := cls, name := "A", age := 0 }

/-- Second factory classmethod of the two-classmethod bundle. -/
def makeBFn : String → List PyVal → PyVal := fun cls _ =>
  PyVal.obj { cls := cls, name := "B", age := 0 }

/-- Bundle declaring two classmethods; whichever is enumerated first makes the
loop return before the other is installed. -/
def twoClassmethodBundle : PyClass :=
  { cname := "_TwoFactoriesExtension",
    ownDict := [("make_a", Attr.classm makeAFn), ("make_b", Attr.classm makeBFn)],
    baseDir := objectDir }

/-- Payload of a built-in method on the protected `int` target. -/
def bitLengthFn : Obj → List PyVal → PyVal := fun _ _ => PyVal.int 0

/-- The protected built-in target `int`. -/
def intTarget : Target :=
  { tname := "int", isBuiltin := true,
    table := [("bit_length", Attr.func bitLengthFn)] }

/-- A bundle declaring no own members at all. -/
def emptyBundle : PyClass :=
  { cname := "_SomeExtension", ownDict := [], baseDir := objectDir }

/-- Single plain method of the bundle used against the protected target. -/
def dummyMethodFn : Obj → List PyVal → PyVal := fun _ _ =>
  PyVal.str "Cannot add methods on built-in types"

/-- Bundle with one plain method, as in the built-in-extension test. -/
def dummyBundle : PyClass :=
  { cname := "_SomeExtension2",
    ownDict := [("dummy_method", Attr.func dummyMethodFn)],
    baseDir := objectDir }

/-- Version of `greet` declared by the first bundle. -/
def greetB1Fn : Obj → List PyVal → PyVal := fun o _ => PyVal.str ("Hello " ++ o.name)

/-- Version of `greet` declared by the second bundle. -/
def greetB2Fn : Obj → List PyVal → PyVal := fun o _ => PyVal.str ("Hi " ++ o.name)

/-- Factory classmethod of the second `greet` bundle. -/
def makeCFn : String → List PyVal → PyVal := fun cls _ =>
  PyVal.obj { cls := cls, name := "C", age := 0 }

/-- First bundle declaring `greet`. -/
def greetBundle1 : PyClass :=
  { cname := "_GreetExtensionV1",
    ownDict := [("greet", Attr.func greetB1Fn)],
    baseDir := objectDir }

/-- Second bundle declaring `greet` together with a classmethod. -/
def greetBundle2 : PyClass :=
  { cname := "_GreetExtensionV2",
    ownDict := [("make_c", Attr.classm makeCFn), ("greet", Attr.func greetB2Fn)],
    baseDir := objectDir }

/-- Getter of `years_until_graduation`: `max(0, 22 - age)`. -/
def gradGetter : Obj → PyVal := fun o => PyVal.int (max 0 (22 - o.age))

/-- Setter of `years_until_graduation`: `age = 22 - years`. -/
def gradSetter : Obj → PyVal → Obj := fun o v =>
  match v with
  | PyVal.int y => { o with age := 22 - y }
  | _ => o

/-- Bundle declaring the read/write `years_until_graduation` property. -/
def gradBundle : PyClass :=
  { cname := "_UserPropertiesExtension",
    ownDict := [("years_until_graduation", Attr.prop gradGetter (some gradSetter))],
    baseDir := objectDir }

/-- Getter of the read-only `is_adult` property: `age >= 18`. -/
def isAdultGetter : Obj → PyVal := fun o => PyVal.bool (decide (18 ≤ o.age))

/-- Bundle declaring the getter-only `is_adult` property. -/
def isAdultBundle : PyClass :=
  { cname := "_UserAdultExtension",
    ownDict := [("is_adult", Attr.prop isAdultGetter none)],
    baseDir := objectDir }

/-- Factory classmethod of the property-dropping bundle. -/
def makeDFn : String → List PyVal → PyVal := fun cls _ =>
  PyVal.obj { cls := cls, name := "D", age := 0 }

/-- Getter of the `grade` property of the property-dropping bundle. -/
def gradeGetter : Obj → PyVal := fun o => PyVal.int o.age

/-- Bundle declaring a classmethod and a property; when the classmethod is
enumerated first, the loop returns before installing the property. -/
def propClassmBundle : PyClass :=
  { cname := "_PropAfterClassmethod",
    ownDict := [("make_d", Attr.classm makeDFn), ("grade", Attr.prop gradeGetter none)],
    baseDir := objectDir }

/-- Own `__eq__` payload of the bundle that redeclares a base name. -/
def myEqFn : Obj → List PyVal → PyVal := fun _ _ => PyVal.bool false

/-- Bundle redeclaring `__eq__`, a name also visible on its `object` base. -/
def eqOverrideBundle : PyClass :=
  { cname := "_EqOverrideExtension",
    ownDict := [("__eq__", Attr.func myEqFn)],
    baseDir := objectDir }

/-- Key membership agrees with membership in the key list. -/
lemma hasKey_iff_mem (tbl : List (String × Attr)) (n : String) :
    hasKey tbl n = true ↔ n ∈ tbl.map Prod.fst := by
  induction tbl with
  | nil => simp [hasKey]
  | cons p rest ih =>
    by_cases h : p.1 = n
    · simp [hasKey, h]
    · have hne : ¬(n = p.1) := fun hc => h hc.symm
      simp only [hasKey, if_neg h, List.map_cons, List.mem_cons, ih]
      exact ⟨Or.inr, fun hor => hor.resolve_left hne⟩

/-- A key that is absent looks up to `none`. -/
lemma lookupTable_eq_none (tbl : List (String × Attr)) (n : String)
    (h : hasKey tbl n = false) : lookupTable tbl n = none := by
  induction tbl with
  | nil => rfl
  | cons p rest ih =>
    by_cases hp : p.1 = n
    · simp [hasKey, hp] at h
    · simp only [lookupTable, if_neg hp]
      exact ih (by simpa [hasKey, hp] using h)

/-- Replacing an existing key makes lookup return the new value. -/
lemma lookupTable_replaceKey_self (tbl : List (String × Attr)) (n : String) (a : Attr)
    (h : hasKey tbl n = true) : lookupTable (replaceKey tbl n a) n = some a := by
  induction tbl with
  | nil => simp [hasKey] at h
  | cons p rest ih =>
    by_cases hp : p.1 = n
    · simp [replaceKey, hp, lookupTable]
    · simp only [replaceKey, if_neg hp, lookupTable]
      exact ih (by simpa [hasKey, hp] using h)

/-- Appending a fresh key makes lookup return its value. -/
lemma lookupTable_append_self (tbl : List (String × Attr)) (n : String) (a : Attr)
    (h : hasKey tbl n = false) : lookupTable (tbl ++ [(n, a)]) n = some a := by
  induction tbl with
  | nil => simp [lookupTable]
  | cons p rest ih =>
    by_cases hp : p.1 = n
    · simp [hasKey, hp] at h
    · simp only [List.cons_append, lookupTable, if_neg hp]
      exact ih (by simpa [hasKey, hp] using h)

/-- Dictionary store followed by lookup of the same key yields the stored value. -/
lemma lookupTable_tableSet_self (tbl : List (String × Attr)) (n : String) (a : Attr) :
    lookupTable (tableSet tbl n a) n = some a := by
  by_cases h : hasKey tbl n = true
  · simp only [tableSet, h, if_true]
    exact lookupTable_replaceKey_self tbl n a h
  · have hf : hasKey tbl n = false := by simpa using h
    simp only [tableSet, hf, Bool.false_eq_true, if_false]
    exact lookupTable_append_self tbl n a hf

/-- Replacing one key leaves lookups of other keys unchanged. -/
lemma lookupTable_replaceKey_ne (tbl : List (String × Attr)) (n : String) (a : Attr)
    (m : String) (h : m ≠ n) : lookupTable (replaceKey tbl n a) m = lookupTable tbl m := by
  induction tbl with
  | nil => rfl
  | cons p rest ih =>
    by_cases hp : p.1 = n
    · have hnm : ¬(n = m) := fun hc => h hc.symm
      have hpm : ¬(p.1 = m) := hp ▸ hnm
      simp only [replaceKey, if_pos hp, lookupTable, if_neg hnm, if_neg hpm, ih]
    · simp only [replaceKey, if_neg hp, lookupTable, ih]

/-- Appending a fresh entry leaves lookups of other keys unchanged. -/
lemma lookupTable_append_ne (tbl : List (String × Attr)) (n : String) (a : Attr)
    (m : String) (h : m ≠ n) : lookupTable (tbl ++ [(n, a)]) m = lookupTable tbl m := by
  induction tbl with
  | nil =>
    have hne : ¬(n = m) := fun hc => h hc.symm
    simp [lookupTable, hne]
  | cons p rest ih =>
    by_cases hm : p.1 = m
    · simp [lookupTable, hm]
    · simp only [List.cons_append, lookupTable, if_neg hm]
      exact ih

/-- Storing one key leaves lookups of other keys unchanged. -/
lemma lookupTable_tableSet_ne (tbl : List (String × Attr)) (n : String) (a : Attr)
    (m : String) (h : m ≠ n) : lookupTable (tableSet tbl n a) m = lookupTable tbl m := by
  by_cases hk : hasKey tbl n = true
  · simp only [tableSet, hk, if_true]
    exact lookupTable_replaceKey_ne tbl n a m h
  · have hf : hasKey tbl n = false := by simpa using hk
    simp only [tableSet, hf, Bool.false_eq_true, if_false]
    exact lookupTable_append_ne tbl n a m h

/-- Replacement does not change the key list. -/
lemma keys_replaceKey (tbl : List (String × Attr)) (n : String) (a : Attr) :
    (replaceKey tbl n a).map Prod.fst = tbl.map Prod.fst := by
  induction tbl with
  | nil => rfl
  | cons p rest ih =>
    by_cases hp : p.1 = n
    · simp [replaceKey, hp, ih]
    · simp [replaceKey, hp, ih]

/-- Dictionary store preserves well-formedness of the key list. -/
lemma keysNodup_tableSet (tbl : List (String × Attr)) (n : String) (a : Attr)
    (h : keysNodup tbl) : keysNodup (tableSet tbl n a) := by
  by_cases hk : hasKey tbl n = true
  · simpa only [keysNodup, tableSet, hk, if_true, keys_replaceKey] using h
  · have hf : hasKey tbl n = false := by simpa using hk
    have hnm : n ∉ tbl.map Prod.fst := fun hm => by
      rw [(hasKey_iff_mem tbl n).mpr hm] at hf
      exact Bool.true_eq_false.mp hf
    simp only [keysNodup, tableSet, hf, Bool.false_eq_true, if_false, List.map_append]
    rw [List.nodup_append]
    exact ⟨h, List.nodup_singleton n, fun x hx hx2 => by
      simp only [List.map_cons, List.map_nil, List.mem_singleton] at hx2
      exact hnm (hx2 ▸ hx)⟩

/-- Replacing a key that is absent is the identity. -/
lemma replaceKey_of_hasKey_false (tbl : List (String × Attr)) (n : String) (a : Attr)
    (h : hasKey tbl n = false) : replaceKey tbl n a = tbl := by
  induction tbl with
  | nil => rfl
  | cons p rest ih =>
    by_cases hp : p.1 = n
    · simp [hasKey, hp] at h
    · simp only [replaceKey, if_neg hp]
      rw [ih (by simpa [hasKey, hp] using h)]

/-- Storing the value a well-formed dictionary already holds is the identity. -/
lemma tableSet_self_eq (tbl : List (String × Attr)) (n : String) (a : Attr)
    (hnd : keysNodup tbl) (h : lookupTable tbl n = some a) : tableSet tbl n a = tbl := by
  have hk : hasKey tbl n = true := by
    by_contra hc
    have hf : hasKey tbl n = false := by simpa using hc
    rw [lookupTable_eq_none tbl n hf] at h
    exact Option.noConfusion h
  simp only [tableSet, hk, if_true]
  induction tbl with
  | nil => rfl
  | cons p rest ih =>
    obtain ⟨hp1, hrest⟩ := List.nodup_cons.mp hnd
    by_cases hp : p.1 = n
    · have hv : p.2 = a := by simpa [lookupTable, hp] using h
      have hkr : hasKey rest n = false := by
        by_contra hc
        have : hasKey rest n = true := by simpa using hc
        exact hp1 (hp ▸ (hasKey_iff_mem rest n).mp this)
      simp only [replaceKey, if_pos hp, replaceKey_of_hasKey_false rest n a hkr]
      rw [← hp, ← hv]
    · have hlr : lookupTable rest n = some a := by simpa [lookupTable, hp] using h
      have hkr : hasKey rest n = true := by
        by_contra hc
        have hf : hasKey rest n = false := by simpa using hc
        rw [lookupTable_eq_none rest n hf] at hlr
        exact Option.noConfusion hlr
      simp only [replaceKey, if_neg hp]
      rw [ih hrest hlr hkr]

/-- Step equation of the `extensified` loop when the name is unresolvable
(cannot happen for names drawn from `dir`): the name is skipped. -/
lemma extLoop_step_skip (c : PyClass) (t : Target) (n : String) (rest : List String)
    (hg : getattr_static c n = none) :
    Extensified.decoratorLoop c t (n :: rest) = Extensified.decoratorLoop c t rest := by
  simp [Extensified.decoratorLoop, hg]

/-- Step equation of the `extensified` loop on a built-in target: whatever the
attribute kind, the first `setattr` raises `TypeError` and the table is left
as it was. -/
lemma extLoop_step_raise (c : PyClass) (t : Target) (n : String) (rest : List String)
    (raw : Attr) (hg : getattr_static c n = some raw) (hb : t.isBuiltin = true) :
    Extensified.decoratorLoop c t (n :: rest) = RunResult.mk true t := by
  cases raw <;> simp [Extensified.decoratorLoop, hg, installStop, setattrType, hb, getattrValue]

/-- Step equation of the `extensified` loop on a non-built-in target for a
classmethod, class-bound-method or staticmethod entry: the re-wrapped member
is installed and the branch's `return` ends the whole run. -/
lemma extLoop_step_halt (c : PyClass) (t : Target) (n : String) (rest : List String)
    (raw : Attr) (hg : getattr_static c n = some raw) (hh : haltsLoop raw = true)
    (hb : t.isBuiltin = false) :
    Extensified.decoratorLoop c t (n :: rest)
      = RunResult.mk false { t with table := tableSet t.table n (installedAttr c.cname raw) } := by
  cases raw
  case classm f => simp [Extensified.decoratorLoop, hg, installStop, setattrType, hb, installedAttr]
  case boundm s f => simp [Extensified.decoratorLoop, hg, installStop, setattrType, hb, installedAttr]
  case staticm f => simp [Extensified.decoratorLoop, hg, installStop, setattrType, hb, installedAttr]
  all_goals simp [haltsLoop] at hh

/-- Step equation of the `extensified` loop on a non-built-in target for any
other entry: the `getattr` view is installed and the loop continues. -/
lemma extLoop_step_default (c : PyClass) (t : Target) (n : String) (rest : List String)
    (raw : Attr) (hg : getattr_static c n = some raw) (hh : haltsLoop raw = false)
    (hb : t.isBuiltin = false) :
    Extensified.decoratorLoop c t (n :: rest)
      = Extensified.decoratorLoop c
          { t with table := tableSet t.table n (getattrValue c.cname raw) } rest := by
  cases raw
  case classm f => simp [haltsLoop] at hh
  case boundm s f => simp [haltsLoop] at hh
  case staticm f => simp [haltsLoop] at hh
  all_goals simp [Extensified.decoratorLoop, hg, setattrType, hb, getattrValue]

/-- For an entry that does not halt the loop, the installed value is just the
`getattr` view. -/
lemma installedAttr_of_not_halt (owner : String) (raw : Attr) (hh : haltsLoop raw = false) :
    installedAttr owner raw = getattrValue owner raw := by
  cases raw
  case classm f => simp [haltsLoop] at hh
  case boundm s f => simp [haltsLoop] at hh
  case staticm f => simp [haltsLoop] at hh
  all_goals rfl

/-- The `extensified` run never changes the identity of the target type. -/
lemma extLoop_tname (c : PyClass) (order : List String) :
    ∀ t : Target, (Extensified.decoratorLoop c t order).target.tname = t.tname := by
  induction order with
  | nil => intro t; rfl
  | cons n rest ih =>
    intro t
    cases hg : getattr_static c n with
    | none => rw [extLoop_step_skip c t n rest hg]; exact ih t
    | some raw =>
      by_cases hb : t.isBuiltin = true
      · rw [extLoop_step_raise c t n rest raw hg hb]
      · have hb2 : t.isBuiltin = false := by simpa using hb
        cases hh : haltsLoop raw with
        | true => rw [extLoop_step_halt c t n rest raw hg hh hb2]
        | false => rw [extLoop_step_default c t n rest raw hg hh hb2]; exact ih _

/-- The `extensified` run never changes the built-in flag of the target. -/
lemma extLoop_isBuiltin (c : PyClass) (order : List String) :
    ∀ t : Target, (Extensified.decoratorLoop c t order).target.isBuiltin = t.isBuiltin := by
  induction order with
  | nil => intro t; rfl
  | cons n rest ih =>
    intro t
    cases hg : getattr_static c n with
    | none => rw [extLoop_step_skip c t n rest hg]; exact ih t
    | some raw =>
      by_cases hb : t.isBuiltin = true
      · rw [extLoop_step_raise c t n rest raw hg hb]
      · have hb2 : t.isBuiltin = false := by simpa using hb
        cases hh : haltsLoop raw with
        | true => rw [extLoop_step_halt c t n rest raw hg hh hb2]
        | false => rw [extLoop_step_default c t n rest raw hg hh hb2]; exact ih _

/-- The `extensified` run preserves well-formedness of the member table. -/
lemma extLoop_keysNodup (c : PyClass) (order : List String) :
    ∀ t : Target, keysNodup t.table →
      keysNodup (Extensified.decoratorLoop c t order).target.table := by
  induction order with
  | nil => intro t h; exact h
  | cons n rest ih =>
    intro t h
    cases hg : getattr_static c n with
    | none => rw [extLoop_step_skip c t n rest hg]; exact ih t h
    | some raw =>
      by_cases hb : t.isBuiltin = true
      · rw [extLoop_step_raise c t n rest raw hg hb]; exact h
      · have hb2 : t.isBuiltin = false := by simpa using hb
        cases hh : haltsLoop raw with
        | true =>
          rw [extLoop_step_halt c t n rest raw hg hh hb2]
          exact keysNodup_tableSet _ _ _ h
        | false =>
          rw [extLoop_step_default c t n rest raw hg hh hb2]
          exact ih _ (keysNodup_tableSet _ _ _ h)

/-- On a non-built-in target the `extensified` run raises no error. -/
lemma extLoop_not_raised (c : PyClass) (order : List String) :
    ∀ t : Target, t.isBuiltin = false →
      (Extensified.decoratorLoop c t order).raised = false := by
  induction order with
  | nil => intro t _; rfl
  | cons n rest ih =>
    intro t hb
    cases hg : getattr_static c n with
    | none => rw [extLoop_step_skip c t n rest hg]; exact ih t hb
    | some raw =>
      cases hh : haltsLoop raw with
      | true => rw [extLoop_step_halt c t n rest raw hg hh hb]
      | false => rw [extLoop_step_default c t n rest raw hg hh hb]; exact ih _ hb

/-- Frame property of the `extensified` run: a name outside the enumerated
list keeps exactly the table entry it had before the run. -/
lemma extLoop_frame (c : PyClass) (x : String) (order : List String) :
    ∀ t : Target, x ∉ order →
      lookupTable (Extensified.decoratorLoop c t order).target.table x
        = lookupTable t.table x := by
  induction order with
  | nil => intro t _; rfl
  | cons n rest ih =>
    intro t hx
    have hxn : x ≠ n := by
      intro hc
      exact hx (hc ▸ List.mem_cons_self n rest)
    have hxr : x ∉ rest := fun hc => hx (List.mem_cons_of_mem n hc)
    cases hg : getattr_static c n with
    | none => rw [extLoop_step_skip c t n rest hg]; exact ih t hxr
    | some raw =>
      by_cases hb : t.isBuiltin = true
      · rw [extLoop_step_raise c t n rest raw hg hb]
      · have hb2 : t.isBuiltin = false := by simpa using hb
        cases hh : haltsLoop raw with
        | true =>
          rw [extLoop_step_halt c t n rest raw hg hh hb2]
          exact lookupTable_tableSet_ne _ _ _ _ hxn
        | false =>
          rw [extLoop_step_default c t n rest raw hg hh hb2, ih _ hxr]
          exact lookupTable_tableSet_ne _ _ _ _ hxn

/-- Reach property of the `extensified` run: when none of the names enumerated
before `n` halts the loop, and `n` does not recur later, the run leaves under
`n` exactly the entry the matching branch installs for `n`'s raw attribute. -/
lemma extLoop_reach (c : PyClass) (n : String) (raw : Attr) (post : List String) :
    ∀ (pre : List String) (t : Target),
      t.isBuiltin = false →
      continuesThrough c pre = true →
      n ∉ post →
      getattr_static c n = some raw →
      lookupTable (Extensified.decoratorLoop c t (pre ++ n :: post)).target.table n
        = some (installedAttr c.cname raw) := by
  intro pre
  induction pre with
  | nil =>
    intro t hb _ hpost hg
    rw [List.nil_append]
    cases hh : haltsLoop raw with
    | true =>
      rw [extLoop_step_halt c t n post raw hg hh hb]
      exact lookupTable_tableSet_self _ _ _
    | false =>
      rw [extLoop_step_default c t n post raw hg hh hb]
      rw [extLoop_frame c n post _ hpost]
      rw [lookupTable_tableSet_self, installedAttr_of_not_halt c.cname raw hh]
  | cons m pre ih =>
    intro t hb hcont hpost hg
    have hsplit : (match getattr_static c m with
        | some am => !haltsLoop am
        | none => true) = true ∧ continuesThrough c pre = true := by
      simpa [continuesThrough, List.all_cons, Bool.and_eq_true] using hcont
    rw [List.cons_append]
    cases hgm : getattr_static c m with
    | none =>
      rw [extLoop_step_skip c t m (pre ++ n :: post) hgm]
      exact ih t hb hsplit.2 hpost hg
    | some am =>
      have ham : haltsLoop am = false := by
        have hm1 := hsplit.1
        rw [hgm] at hm1
        simpa using hm1
      rw [extLoop_step_default c t m (pre ++ n :: post) am hgm ham hb]
      exact ih _ hb hsplit.2 hpost hg

/-- Idempotence of the `extensified` run: re-running the same enumeration on
the already-extended target re-installs identical entries and changes
nothing. -/
lemma extLoop_idem (c : PyClass) (order : List String) :
    ∀ t : Target, t.isBuiltin = false → keysNodup t.table → order.Nodup →
      Extensified.decoratorLoop c (Extensified.decoratorLoop c t order).target order
        = Extensified.decoratorLoop c t order := by
  induction order with
  | nil => intro t _ _ _; rfl
  | cons n rest ih =>
    intro t hb hnd hord
    have hnr : n ∉ rest := (List.nodup_cons.mp hord).1
    have hrest : rest.Nodup := (List.nodup_cons.mp hord).2
    cases hg : getattr_static c n with
    | none =>
      rw [extLoop_step_skip c t n rest hg,
        extLoop_step_skip c (Extensified.decoratorLoop c t rest).target n rest hg]
      exact ih t hb hnd hrest
    | some raw =>
      cases hh : haltsLoop raw with
      | true =>
        rw [extLoop_step_halt c t n rest raw hg hh hb]
        have hb2 : ({ t with table := tableSet t.table n (installedAttr c.cname raw) } : Target).isBuiltin = false := hb
        rw [extLoop_step_halt c _ n rest raw hg hh hb2]
        have h2 : lookupTable (tableSet t.table n (installedAttr c.cname raw)) n
            = some (installedAttr c.cname raw) := lookupTable_tableSet_self _ _ _
        have h3 : keysNodup (tableSet t.table n (installedAttr c.cname raw)) :=
          keysNodup_tableSet _ _ _ hnd
        rw [show tableSet (tableSet t.table n (installedAttr c.cname raw)) n (installedAttr c.cname raw)
            = tableSet t.table n (installedAttr c.cname raw) from tableSet_self_eq _ _ _ h3 h2]
      | false =>
        rw [extLoop_step_default c t n rest raw hg hh hb]
        have hb2 : ({ t with table := tableSet t.table n (getattrValue c.cname raw) } : Target).isBuiltin = false := hb
        have hnd2 : keysNodup ({ t with table := tableSet t.table n (getattrValue c.cname raw) } : Target).table :=
          keysNodup_tableSet _ _ _ hnd
        have hRb : (Extensified.decoratorLoop c { t with table := tableSet t.table n (getattrValue c.cname raw) } rest).target.isBuiltin = false := by
          rw [extLoop_isBuiltin]; exact hb2
        have hRnd : keysNodup (Extensified.decoratorLoop c { t with table := tableSet t.table n (getattrValue c.cname raw) } rest).target.table :=
          extLoop_keysNodup c rest _ hnd2
        have hRlook : lookupTable (Extensified.decoratorLoop c { t with table := tableSet t.table n (getattrValue c.cname raw) } rest).target.table n
            = some (getattrValue c.cname raw) := by
          rw [extLoop_frame c n rest _ hnr]
          exact lookupTable_tableSet_self _ _ _
        rw [extLoop_step_default c _ n rest raw hg hh hRb]
        rw [show ({ (Extensified.decoratorLoop c { t with table := tableSet t.table n (getattrValue c.cname raw) } rest).target with
              table := tableSet (Extensified.decoratorLoop c { t with table := tableSet t.table n (getattrValue c.cname raw) } rest).target.table n (getattrValue c.cname raw) } : Target)
            = (Extensified.decoratorLoop c { t with table := tableSet t.table n (getattrValue c.cname raw) } rest).target from by
          rw [tableSet_self_eq _ _ _ hRnd hRlook]]
        exact ih _ hb2 hnd2 hrest

/-- Boolean name membership agrees with list membership. -/
lemma memb_iff (l : List String) (n : String) : memb l n = true ↔ n ∈ l := by
  induction l with
  | nil => simp [memb]
  | cons x xs ih =>
    by_cases h : x = n
    · simp [memb, h]
    · have hne : ¬(n = x) := fun hc => h hc.symm
      simp only [memb, if_neg h, List.mem_cons, ih]
      exact ⟨Or.inr, fun hor => hor.resolve_left hne⟩

/-- Every name of the own-member set resolves through `getattr_static`. -/
lemma getattr_static_of_mem_all (c : PyClass) (n : String)
    (h : n ∈ all_method_names c) : ∃ a, getattr_static c n = some a := by
  have hf := (List.mem_filter.mp h).2
  cases hg : getattr_static c n with
  | none => rw [pygetattr, hg] at hf; simp at hf
  | some a => exact ⟨a, rfl⟩

/-- A base name whose resolved attribute passes the member filter lies in the
parent name set. -/
lemma mem_parent_aux (owner : String) (l : List (String × Attr)) (n : String) (b : Attr)
    (hlook : lookupTable l n = some b) (hf : methodFilter (getattrValue owner b) = true) :
    n ∈ (l.filter fun p => methodFilter (getattrValue owner p.2)).map Prod.fst := by
  induction l with
  | nil => simp [lookupTable] at hlook
  | cons p rest ih =>
    by_cases hp : p.1 = n
    · have hv : p.2 = b := by
        have := hlook
        rw [lookupTable, if_pos hp] at this
        exact Option.some.inj this
      rw [List.filter_cons, if_pos (by rw [hv]; exact hf)]
      rw [List.map_cons, hp]
      exact List.mem_cons_self n _
    · have hrest : lookupTable rest n = some b := by
        have := hlook
        rw [lookupTable, if_neg hp] at this
        exact this
      by_cases hq : methodFilter (getattrValue owner p.2) = true
      · rw [List.filter_cons, if_pos hq, List.map_cons]
        exact List.mem_cons_of_mem _ (ih hrest)
      · rw [List.filter_cons, if_neg hq]
        exact ih hrest

/-- A name of the parent set is filtered out of the own-member set. -/
lemma not_mem_nonInherited_of_mem_parent (c : PyClass) (n : String)
    (h : n ∈ parent_classes_method_names c) :
    n ∉ _non_inherited_methods_names c := by
  intro hmem
  have hp := (List.mem_filter.mp hmem).2
  rw [(memb_iff (parent_classes_method_names c) n).mpr h] at hp
  simp at hp

/-- On bundles whose enumerated members are all plain functions or
properties, the superseded `extendme` loop and the final `extensified` loop
compute identical runs. -/
lemma loops_agree (c : PyClass) (order : List String) :
    ∀ t : Target,
      (∀ m ∈ order, ∀ am, getattr_static c m = some am →
        (match am with
         | Attr.func _ => True
         | Attr.prop _ _ => True
         | _ => False)) →
      Extendme.decoratorLoop c t order = Extensified.decoratorLoop c t order := by
  induction order with
  | nil => intro t _; rfl
  | cons n rest ih =>
    intro t hall
    have hrest : ∀ m ∈ rest, ∀ am, getattr_static c m = some am →
        (match am with
         | Attr.func _ => True
         | Attr.prop _ _ => True
         | _ => False) := fun m hm => hall m (List.mem_cons_of_mem n hm)
    cases hg : getattr_static c n with
    | none =>
      rw [show Extendme.decoratorLoop c t (n :: rest) = Extendme.decoratorLoop c t rest from by
        simp [Extendme.decoratorLoop, hg]]
      rw [extLoop_step_skip c t n rest hg]
      exact ih t hrest
    | some am =>
      have hshape := hall n (List.mem_cons_self n rest) am hg
      cases am
      case func f =>
        rw [show Extendme.decoratorLoop c t (n :: rest)
            = (match setattrType t n (getattrValue c.cname (Attr.func f)) with
               | none => RunResult.mk true t
               | some t2 => Extendme.decoratorLoop c t2 rest) from by
          simp [Extendme.decoratorLoop, hg]]
        rw [show Extensified.decoratorLoop c t (n :: rest)
            = (match setattrType t n (getattrValue c.cname (Attr.func f)) with
               | none => RunResult.mk true t
               | some t2 => Extensified.decoratorLoop c t2 rest) from by
          simp [Extensified.decoratorLoop, hg]]
        cases setattrType t n (getattrValue c.cname (Attr.func f)) with
        | none => rfl
        | some t2 => exact ih t2 hrest
      case prop g s =>
        rw [show Extendme.decoratorLoop c t (n :: rest)
            = (match setattrType t n (getattrValue c.cname (Attr.prop g s)) with
               | none => RunResult.mk true t
               | some t2 => Extendme.decoratorLoop c t2 rest) from by
          simp [Extendme.decoratorLoop, hg]]
        rw [show Extensified.decoratorLoop c t (n :: rest)
            = (match setattrType t n (getattrValue c.cname (Attr.prop g s)) with
               | none => RunResult.mk true t
               | some t2 => Extensified.decoratorLoop c t2 rest) from by
          simp [Extensified.decoratorLoop, hg]]
        cases setattrType t n (getattrValue c.cname (Attr.prop g s)) with
        | none => rfl
        | some t2 => exact ih t2 hrest
      all_goals exact absurd hshape (by simp)

/-- C1: the claim states that after a successful registration every callable
or computed-property member declared directly on the bundle is present in the
target's member table, regardless of how many members the bundle declares or
of their kinds.  The code refutes this: its classmethod and staticmethod
branches end with `return` instead of continuing the loop, so with a bundle
declaring two classmethods, under either enumeration order of the own-member
set the run returns without error yet one declared member is absent from the
target's table. -/
theorem claim_C1_return_bug :
    ("make_a" ∈ _non_inherited_methods_names twoClassmethodBundle ∧
     "make_b" ∈ _non_inherited_methods_names twoClassmethodBundle) ∧
    (Extensified.extension_on userTarget twoClassmethodBundle ["make_a", "make_b"]).raised = false ∧
    lookupTable (Extensified.extension_on userTarget twoClassmethodBundle
      ["make_a", "make_b"]).target.table "make_b" = none ∧
    (Extensified.extension_on userTarget twoClassmethodBundle ["make_b", "make_a"]).raised = false ∧
    lookupTable (Extensified.extension_on userTarget twoClassmethodBundle
      ["make_b", "make_a"]).target.table "make_a" = none :=
  ⟨⟨by decide, by decide⟩, rfl, rfl, rfl, rfl⟩

/-- C2, counterexample: the claim states that registering any bundle —
including an empty one — on a protected built-in target raises `TypeError`
before inspecting the bundle.  The code has no explicit protected-target
check; with a bundle whose own-member set is empty the loop body never runs,
so registration on the built-in `int` target raises nothing at all. -/
theorem claim_C2_counterexample :
    intTarget.isBuiltin = true ∧
    Extensified.register intTarget emptyBundle = RunResult.mk false intTarget :=
  ⟨rfl, rfl⟩

/-- C2, amended: for a protected built-in target and a bundle whose computed
own-member set is nonempty, registration raises `TypeError` at the first
attempted member installation — the error comes from `setattr` itself, after
the bundle has been inspected — and the target's member table is left
unchanged; an empty own-member set makes registration a silent no-op. -/
theorem claim_C2_amended (t : Target) (c : PyClass)
    (hb : t.isBuiltin = true) (hne : _non_inherited_methods_names c ≠ []) :
    Extensified.register t c = RunResult.mk true t := by
  unfold Extensified.register Extensified.extension_on
  cases hl : _non_inherited_methods_names c with
  | nil => exact absurd hl hne
  | cons n0 rest =>
    have hmem : n0 ∈ all_method_names c := by
      have hm : n0 ∈ _non_inherited_methods_names c := by
        rw [hl]; exact List.mem_cons_self n0 rest
      exact (List.mem_filter.mp hm).1
    obtain ⟨a, ha⟩ := getattr_static_of_mem_all c n0 hmem
    exact extLoop_step_raise c t n0 rest a ha hb

/-- C2, witness: the built-in `int` target with a one-method bundle satisfies
the amended claim's hypotheses, and registration raises while leaving the
table untouched. -/
theorem claim_C2_witness :
    (intTarget.isBuiltin = true ∧ _non_inherited_methods_names dummyBundle ≠ []) ∧
    Extensified.register intTarget dummyBundle = RunResult.mk true intTarget :=
  ⟨⟨rfl, by decide⟩, claim_C2_amended intTarget dummyBundle rfl (by decide)⟩

/-- C3, counterexample: the claim states that for every bundle declaring a
classmethod, after registration that member is invocable through the target
with the target as implicit first argument.  With a bundle declaring two
classmethods, under either enumeration order one of the declared classmethods
is not installed at all, so invoking it through the target fails. -/
theorem claim_C3_counterexample :
    ("make_a" ∈ _non_inherited_methods_names twoClassmethodBundle ∧
     "make_b" ∈ _non_inherited_methods_names twoClassmethodBundle) ∧
    callClassmethod (Extensified.extension_on userTarget twoClassmethodBundle
      ["make_a", "make_b"]).target "make_b" [] = none ∧
    callClassmethod (Extensified.extension_on userTarget twoClassmethodBundle
      ["make_b", "make_a"]).target "make_a" [] = none :=
  ⟨⟨by decide, by decide⟩, rfl, rfl⟩

/-- C3, amended: for every non-protected target and bundle declaring a
classmethod member that the registration run actually reaches (no earlier
enumerated member is a classmethod or staticmethod, and the name does not
recur later), accessing the member through the target binds the target type
itself — not the bundle type — as the implicit first argument, and invoking
it applies the wrapped function to the target's identity, so it can construct
and return instances of the target. -/
theorem claim_C3_amended (t : Target) (c : PyClass) (pre post : List String) (n : String)
    (f : String → List PyVal → PyVal)
    (hb : t.isBuiltin = false)
    (hg : getattr_static c n = some (Attr.classm f))
    (hpre : continuesThrough c pre = true)
    (hpost : n ∉ post) :
    classmethodBoundSelf (Extensified.extension_on t c (pre ++ n :: post)).target n
      = some t.tname ∧
    ∀ args, callClassmethod (Extensified.extension_on t c (pre ++ n :: post)).target n args
      = some (f t.tname args) := by
  have hlook : lookupTable (Extensified.decoratorLoop c t (pre ++ n :: post)).target.table n
      = some (Attr.classm f) :=
    extLoop_reach c n (Attr.classm f) post pre t hb hpre hpost hg
  have htn : (Extensified.decoratorLoop c t (pre ++ n :: post)).target.tname = t.tname :=
    extLoop_tname c (pre ++ n :: post) t
  constructor
  · unfold Extensified.extension_on classmethodBoundSelf
    rw [hlook, htn]
  · intro args
    unfold Extensified.extension_on callClassmethod
    rw [hlook, htn]

/-- C3, witness: registering the `create_adult` classmethod bundle on the
`User` target binds `User` (not the bundle class) as the implicit first
argument, and the call constructs an instance of `User`. -/
theorem claim_C3_witness :
    (userTarget.isBuiltin = false ∧
     getattr_static createBundle "create_adult" = some (Attr.classm createAdultFn) ∧
     continuesThrough createBundle [] = true ∧
     "create_adult" ∉ ([] : List String)) ∧
    (classmethodBoundSelf (Extensified.extension_on userTarget createBundle
        ["create_adult"]).target "create_adult" = some "User" ∧
     callClassmethod (Extensified.extension_on userTarget createBundle
        ["create_adult"]).target "create_adult" [PyVal.str "Vasi"]
       = some (PyVal.obj (Obj.mk "User" "Vasi" 18))) := by
  have h := claim_C3_amended userTarget createBundle [] [] "create_adult" createAdultFn
    rfl rfl rfl (by simp)
  exact ⟨⟨rfl, rfl, rfl, by simp⟩, h.1, h.2 [PyVal.str "Vasi"]⟩

/-- C4: when a bundle redeclares a name that is also visible on its own
immediate supertype as a callable or descriptor member, the asymmetric name
difference excludes it from the own-member set, so registration never
installs the redeclared member and the target's entry under that name is
unchanged. -/
theorem claim_C4_theorem (t : Target) (c : PyClass) (n : String) (aOwn b : Attr)
    (hown : lookupTable c.ownDict n = some aOwn)
    (hbase : lookupTable c.baseDir n = some b)
    (hf : methodFilter (getattrValue c.cname b) = true) :
    n ∉ _non_inherited_methods_names c ∧
    lookupTable (Extensified.register t c).target.table n = lookupTable t.table n := by
  have hpar : n ∈ parent_classes_method_names c := mem_parent_aux c.cname c.baseDir n b hbase hf
  have hnot := not_mem_nonInherited_of_mem_parent c n hpar
  exact ⟨hnot, extLoop_frame c n (_non_inherited_methods_names c) t hnot⟩

/-- C4, witness: a bundle redeclaring `__eq__` (also visible on its `object`
base) never transplants it onto the `User` target. -/
theorem claim_C4_witness :
    (lookupTable eqOverrideBundle.ownDict "__eq__" = some (Attr.func myEqFn) ∧
     lookupTable eqOverrideBundle.baseDir "__eq__" = some (Attr.func objEqFn) ∧
     methodFilter (getattrValue eqOverrideBundle.cname (Attr.func objEqFn)) = true) ∧
    ("__eq__" ∉ _non_inherited_methods_names eqOverrideBundle ∧
     lookupTable (Extensified.register userTarget eqOverrideBundle).target.table "__eq__"
       = lookupTable userTarget.table "__eq__") :=
  ⟨⟨rfl, rfl, rfl⟩,
   claim_C4_theorem userTarget eqOverrideBundle "__eq__" (Attr.func myEqFn)
     (Attr.func objEqFn) rfl rfl rfl⟩

/-- C5, counterexample: the claim states that registering two bundles that
both declare `greet` leaves the second bundle's version observable.  When the
second bundle also declares a classmethod that the set enumeration yields
first, the loop's early `return` skips `greet`, so the first bundle's version
is still the one observed afterwards ("Hello Vasi", not the second bundle's
"Hi Vasi"). -/
theorem claim_C5_counterexample :
    ("greet" ∈ _non_inherited_methods_names greetBundle1 ∧
     "greet" ∈ _non_inherited_methods_names greetBundle2) ∧
    callMethod (Extensified.extension_on (Extensified.register userTarget greetBundle1).target
        greetBundle2 ["make_c", "greet"]).target (Obj.mk "User" "Vasi" 25) "greet" []
      = some (PyVal.str "Hello Vasi") ∧
    greetB2Fn (Obj.mk "User" "Vasi" 25) [] = PyVal.str "Hi Vasi" ∧
    PyVal.str "Hello Vasi" ≠ PyVal.str "Hi Vasi" :=
  ⟨⟨by decide, by decide⟩, rfl, rfl, by decide⟩

/-- C5, amended: registering bundle B1 and then bundle B2 on the same
non-protected target, where both declare the member `n`, leaves B2's version
of `n` observable provided B2's registration run reaches `n` (no earlier
enumerated member of B2 is a classmethod or staticmethod and `n` does not
recur later) — in particular always when B2's own members are only plain
methods and properties. -/
theorem claim_C5_amended (t : Target) (c1 c2 : PyClass) (ord1 pre post : List String)
    (n : String) (a1 a2 : Attr)
    (hb : t.isBuiltin = false)
    (h1 : getattr_static c1 n = some a1)
    (h2 : getattr_static c2 n = some a2)
    (hpre : continuesThrough c2 pre = true)
    (hpost : n ∉ post) :
    lookupTable (Extensified.extension_on (Extensified.extension_on t c1 ord1).target
        c2 (pre ++ n :: post)).target.table n
      = some (installedAttr c2.cname a2) := by
  have hb1 : (Extensified.decoratorLoop c1 t ord1).target.isBuiltin = false := by
    rw [extLoop_isBuiltin]; exact hb
  exact extLoop_reach c2 n a2 post pre _ hb1 hpre hpost h2

/-- C5, witness: with the enumeration of the second bundle reaching `greet`
first, B2's `greet` is the entry observable on the target afterwards. -/
theorem claim_C5_witness :
    (userTarget.isBuiltin = false ∧
     getattr_static greetBundle1 "greet" = some (Attr.func greetB1Fn) ∧
     getattr_static greetBundle2 "greet" = some (Attr.func greetB2Fn) ∧
     continuesThrough greetBundle2 [] = true ∧
     "greet" ∉ ["make_c"]) ∧
    lookupTable (Extensified.extension_on (Extensified.extension_on userTarget greetBundle1
        ["greet"]).target greetBundle2 ["greet", "make_c"]).target.table "greet"
      = some (Attr.func greetB2Fn) :=
  ⟨⟨rfl, rfl, rfl, rfl, by decide⟩,
   claim_C5_amended userTarget greetBundle1 greetBundle2 ["greet"] [] ["make_c"]
     "greet" (Attr.func greetB1Fn) (Attr.func greetB2Fn) rfl rfl rfl rfl (by decide)⟩

/-- C6: registering the same bundle twice on a non-protected target (with the
same set enumeration, which is deterministic for a fixed bundle within a
process) raises no error, and the second run re-installs identical entries,
leaving the member table exactly as after the first run. -/
theorem claim_C6_theorem (t : Target) (c : PyClass) (order : List String)
    (hb : t.isBuiltin = false) (hnd : keysNodup t.table) (hord : order.Nodup) :
    (Extensified.extension_on t c order).raised = false ∧
    Extensified.extension_on (Extensified.extension_on t c order).target c order
      = Extensified.extension_on t c order :=
  ⟨extLoop_not_raised c order t hb, extLoop_idem c order t hb hnd hord⟩

/-- C6, witness: applying the graduation-property bundle to the `User` target
twice equals applying it once, with no error raised. -/
theorem claim_C6_witness :
    (userTarget.isBuiltin = false ∧ keysNodup userTarget.table ∧
     (_non_inherited_methods_names gradBundle).Nodup) ∧
    ((Extensified.register userTarget gradBundle).raised = false ∧
     Extensified.extension_on (Extensified.register userTarget gradBundle).target gradBundle
        (_non_inherited_methods_names gradBundle)
       = Extensified.register userTarget gradBundle) :=
  ⟨⟨rfl, by decide, by decide⟩,
   claim_C6_theorem userTarget gradBundle (_non_inherited_methods_names gradBundle)
     rfl (by decide) (by decide)⟩

/-- C7, counterexample: the claim states that for every bundle declaring a
computed property, reading it on an instance after registration invokes the
getter.  When the bundle also declares a classmethod that the set enumeration
yields first, the loop's early `return` skips the property, so reading it on
an instance fails (`AttributeError`) instead of invoking the getter. -/
theorem claim_C7_counterexample :
    ("grade" ∈ _non_inherited_methods_names propClassmBundle) ∧
    propertyRead (Extensified.extension_on userTarget propClassmBundle
      ["make_d", "grade"]).target (Obj.mk "User" "Vasi" 18) "grade" = none :=
  ⟨by decide, rfl⟩

/-- C7, amended: for every non-protected target and bundle declaring a
computed property that the registration run actually reaches, reading the
property on an instance invokes the getter with that instance as receiver,
assigning through it invokes the setter with that instance as receiver, and
when the property declares no setter, assignment is rejected. -/
theorem claim_C7_amended (t : Target) (c : PyClass) (pre post : List String) (n : String)
    (g : Obj → PyVal) (s : Option (Obj → PyVal → Obj))
    (hb : t.isBuiltin = false)
    (hg : getattr_static c n = some (Attr.prop g s))
    (hpre : continuesThrough c pre = true)
    (hpost : n ∉ post) :
    (∀ o, propertyRead (Extensified.extension_on t c (pre ++ n :: post)).target o n
        = some (g o)) ∧
    (∀ st, s = some st → ∀ o v,
      propertyAssign (Extensified.extension_on t c (pre ++ n :: post)).target o n v
        = some (st o v)) ∧
    (s = none → ∀ o v,
      propertyAssign (Extensified.extension_on t c (pre ++ n :: post)).target o n v
        = none) := by
  have hlook : lookupTable (Extensified.decoratorLoop c t (pre ++ n :: post)).target.table n
      = some (Attr.prop g s) :=
    extLoop_reach c n (Attr.prop g s) post pre t hb hpre hpost hg
  refine ⟨?_, ?_, ?_⟩
  · intro o
    unfold Extensified.extension_on propertyRead
    rw [hlook]
  · intro st hst o v
    unfold Extensified.extension_on propertyAssign
    rw [hlook, hst]
  · intro hst o v
    unfold Extensified.extension_on propertyAssign
    rw [hlook, hst]

/-- C7, witness: the graduation property on a `User` aged 18 reads as 4,
assigning 2 through its setter sets the age to 20, and assignment through the
getter-only `is_adult` property is rejected. -/
theorem claim_C7_witness :
    (userTarget.isBuiltin = false ∧
     getattr_static gradBundle "years_until_graduation"
       = some (Attr.prop gradGetter (some gradSetter)) ∧
     getattr_static isAdultBundle "is_adult" = some (Attr.prop isAdultGetter none)) ∧
    (propertyRead (Extensified.extension_on userTarget gradBundle
        ["years_until_graduation"]).target (Obj.mk "User" "Vasi" 18)
        "years_until_graduation" = some (PyVal.int 4) ∧
     propertyAssign (Extensified.extension_on userTarget gradBundle
        ["years_until_graduation"]).target (Obj.mk "User" "Vasi" 18)
        "years_until_graduation" (PyVal.int 2) = some (Obj.mk "User" "Vasi" 20) ∧
     propertyAssign (Extensified.extension_on userTarget isAdultBundle
        ["is_adult"]).target (Obj.mk "User" "Vasi" 18) "is_adult" (PyVal.int 2) = none) := by
  have h1 := claim_C7_amended userTarget gradBundle [] [] "years_until_graduation"
    gradGetter (some gradSetter) rfl rfl rfl (by simp)
  have h2 := claim_C7_amended userTarget isAdultBundle [] [] "is_adult"
    isAdultGetter none rfl rfl rfl (by simp)
  refine ⟨⟨rfl, rfl, rfl⟩, ?_, ?_, ?_⟩
  · exact (h1.1 (Obj.mk "User" "Vasi" 18)).trans (by decide)
  · exact (h1.2.1 gradSetter rfl (Obj.mk "User" "Vasi" 18) (PyVal.int 2)).trans (by decide)
  · exact h2.2.2 rfl (Obj.mk "User" "Vasi" 18) (PyVal.int 2)

/-- C8: for the `User` target whose native `years_until_death` returns
`100 - age`, registering the bundle that redeclares `years_until_death` as
`200 - age` makes `User("A", 18).years_until_death()` return 182: the
bundle's version overrides the target's native same-name method. -/
theorem claim_C8_theorem :
    callMethod (Extensified.register userTarget yudBundle).target
      (Obj.mk "User" "A" 18) "years_until_death" [] = some (PyVal.int 182) := by
  decide

/-- C9: registration writes only member-table entries whose names lie in the
bundle's computed own-member set; every entry of the target under a name
outside that set is identical before and after the run, for any enumeration
of the own-member set. -/
theorem claim_C9_theorem (t : Target) (c : PyClass) (order : List String) (x : String)
    (hb : t.isBuiltin = false)
    (hord : ∀ m ∈ order, m ∈ _non_inherited_methods_names c)
    (hx : x ∉ _non_inherited_methods_names c) :
    lookupTable (Extensified.extension_on t c order).target.table x
      = lookupTable t.table x :=
  extLoop_frame c x order t (fun h => hx (hord x h))

/-- C9, witness: registering the graduation-property bundle leaves the
target's pre-existing `years_until_death` entry untouched. -/
theorem claim_C9_witness :
    (userTarget.isBuiltin = false ∧
     "years_until_death" ∉ _non_inherited_methods_names gradBundle) ∧
    lookupTable (Extensified.register userTarget gradBundle).target.table
        "years_until_death"
      = lookupTable userTarget.table "years_until_death" :=
  ⟨⟨rfl, by decide⟩,
   claim_C9_theorem userTarget gradBundle (_non_inherited_methods_names gradBundle)
     "years_until_death" rfl (fun _ hm => hm) (by decide)⟩

/-- C10: on every bundle whose own members are only plain instance methods
and computed properties (no classmethods and no staticmethods), the
superseded `extendme` iteration and the final `extensified` iteration perform
identical runs for every enumeration of the own-member set, hence install the
same entries into the target's member table. -/
theorem claim_C10_theorem (t : Target) (c : PyClass) (order : List String)
    (hown : ownAllPlainOrProp c = true)
    (hord : ∀ m ∈ order, m ∈ _non_inherited_methods_names c) :
    Extendme.extension_on t c order = Extensified.extension_on t c order := by
  unfold Extendme.extension_on Extensified.extension_on
  apply loops_agree
  intro m hm am ham
  have hmem := hord m hm
  have hall := (List.all_eq_true.mp hown) m hmem
  rw [ham] at hall
  cases am <;> simp_all

/-- C10, witness: on the graduation-property bundle the two iterations
compute the same run from the `User` target. -/
theorem claim_C10_witness :
    (ownAllPlainOrProp gradBundle = true) ∧
    Extendme.extension_on userTarget gradBundle (_non_inherited_methods_names gradBundle)
      = Extensified.extension_on userTarget gradBundle
          (_non_inherited_methods_names gradBundle) :=
  ⟨by decide,
   claim_C10_theorem userTarget gradBundle (_non_inherited_methods_names gradBundle)
     (by decide) (fun _ hm => hm)⟩
